import Mathlib

/-!
Verification of the route-matching and middleware-dispatch core of the
Node.js router (`src/nodeHttpRouter.ts`).

The embedding models:
* the pattern compiler: `Router.matchRoute` builds a regular expression
  from the route's path template by replacing `:[^\s/]+` segments with
  `([^/]+)` and anchoring with `^...$` (functions `replaceParams`,
  `parseSeq`, `compileRoute`);
* the JavaScript regular-expression engine, restricted to the constructs
  that can appear in a compiled route pattern: literal characters, `.`,
  character classes, `x+`, and capturing groups of the exact shape the
  compiler emits (`(x+)`); matching is anchored, greedy and backtracking
  (`matchPre`, `jsMatch`);
* the route table and scan (`matchRoute`), the wrapped handler built by
  `addRoute` with its global/custom plugin chain (`runHandler`), the
  request pipelines of `handleRequest` and `createServer`
  (`handleRequestM`, `createServerM`), and the self-test harness
  (`runTests`).
-/

/-- Line terminators that the JavaScript `.` atom does not match. -/
def lineTerminators : List Char := ['\n', '\r', '\u2028', '\u2029']

/-- Atoms of the regular-expression subset reachable from compiled route
patterns: a literal character, the dot, or a character class. -/
inductive RAtom where
  | ch (c : Char)
  | dot
  | cls (neg : Bool) (cs : List Char)
deriving DecidableEq, Repr

/-- Whether a single character satisfies an atom, as in JavaScript. -/
def atomMatches (a : RAtom) (c : Char) : Bool :=
  match a with
  | .ch c0 => c = c0
  | .dot => !(lineTerminators.contains c)
  | .cls neg cs => if neg then !(cs.contains c) else cs.contains c

/-- Elements of a compiled pattern: a single atom, a greedy `x+`, or a
capturing group `(x+)` — the only group shape the route compiler emits. -/
inductive RElem where
  | atom (a : RAtom)
  | plus (a : RAtom)
  | pgroup (a : RAtom)
deriving DecidableEq, Repr

/-- `[m, m-1, ..., 1]`: the candidate lengths a greedy `x+` tries, longest
first, where `m` is the length of the maximal run of matching characters. -/
def descendingFrom : Nat → List Nat
  | 0 => []
  | m + 1 => (m + 1) :: descendingFrom m

/-- All ways a pattern can match a prefix of the input, in JavaScript
backtracking priority order.  Each entry is the remaining suffix paired
with the capture list produced so far. -/
def matchPre : List RElem → List Char → List (List Char × List String)
  | [], s => [(s, [])]
  | .atom _ :: _, [] => []
  | .atom a :: es, c :: s => if atomMatches a c then matchPre es s else []
  | .plus a :: es, s =>
      (descendingFrom (s.takeWhile (atomMatches a)).length).flatMap
        (fun k => matchPre es (s.drop k))
  | .pgroup a :: es, s =>
      (descendingFrom (s.takeWhile (atomMatches a)).length).flatMap
        (fun k => (matchPre es (s.drop k)).map
          (fun q => (q.1, String.mk (s.take k) :: q.2)))

/-- The first complete (whole-input) match in priority order. -/
def firstFull (l : List (List Char × List String)) : Option (List String) :=
  match l with
  | [] => none
  | p :: rest => if p.1.isEmpty then some p.2 else firstFull rest

/-- Anchored match of a compiled pattern against the whole input, returning
the captures, as `url.match(new RegExp("^" + source + "$"))` does. -/
def jsMatch (es : List RElem) (s : List Char) : Option (List String) :=
  firstFull (matchPre es s)

/-- Characters that are syntax in the regular-expression subset; a source
character outside this list stands for itself. -/
def regexSpecials : List Char :=
  ['^', '$', '\\', '.', '*', '+', '?', '(', ')', '[', ']', '{', '}', '|']

/-- Parser states for the single-pass pattern parser. -/
inductive PState where
  | base
  | afterAtom (a : RAtom)
  | groupStart
  | groupAfterAtom (a : RAtom)
  | groupAfterPlus (a : RAtom)
  | classStart (inGroup : Bool)
  | classBody (inGroup : Bool) (neg : Bool) (acc : List Char)
deriving DecidableEq, Repr

/-- Closing a character class: inside a group it becomes the group's atom,
otherwise a pending top-level atom. -/
def classClose (inGroup neg : Bool) (acc : List Char) : Option (PState × List RElem) :=
  if inGroup then some (.groupAfterAtom (.cls neg acc), [])
  else some (.afterAtom (.cls neg acc), [])

/-- One parser step from the `base` state. -/
def stepBase (c : Char) : Option (PState × List RElem) :=
  if c = '(' then some (.groupStart, [])
  else if c = '[' then some (.classStart false, [])
  else if c = '.' then some (.afterAtom .dot, [])
  else if regexSpecials.contains c then none
  else some (.afterAtom (.ch c), [])

/-- One parser step.  An unsupported or ill-formed construct yields `none`,
modelling the `SyntaxError` thrown by the `RegExp` constructor. -/
def step (st : PState) (c : Char) : Option (PState × List RElem) :=
  match st with
  | .base => stepBase c
  | .afterAtom a =>
      if c = '+' then some (.base, [.plus a])
      else (stepBase c).map (fun r => (r.1, .atom a :: r.2))
  | .groupStart =>
      if c = '[' then some (.classStart true, [])
      else if c = '.' then some (.groupAfterAtom .dot, [])
      else if regexSpecials.contains c then none
      else some (.groupAfterAtom (.ch c), [])
  | .groupAfterAtom a => if c = '+' then some (.groupAfterPlus a, []) else none
  | .groupAfterPlus a => if c = ')' then some (.base, [.pgroup a]) else none
  | .classStart inG =>
      if c = '^' then some (.classBody inG true [], [])
      else if c = ']' then classClose inG false []
      else if c = '\\' ∨ c = '-' then none
      else some (.classBody inG false [c], [])
  | .classBody inG neg acc =>
      if c = ']' then classClose inG neg acc
      else if c = '\\' ∨ c = '-' then none
      else some (.classBody inG neg (acc ++ [c]), [])

/-- Finishing the parse at end of input; an open group or class is a
syntax error. -/
def finish : PState → Option (List RElem)
  | .base => some []
  | .afterAtom a => some [.atom a]
  | _ => none

/-- Run the parser from a state over the remaining input. -/
def runParse (st : PState) (s : List Char) : Option (List RElem) :=
  match s with
  | [] => finish st
  | c :: rest =>
      match step st c with
      | none => none
      | some r => (runParse r.1 rest).map (r.2 ++ ·)

/-- Parse a pattern source string; `none` models a `SyntaxError` from the
`RegExp` constructor. -/
def parseSeq (s : List Char) : Option (List RElem) :=
  runParse .base s

/-- The whitespace characters of the JavaScript `\s` class: the
ECMAScript WhiteSpace production (tab, vertical tab, form feed, space,
no-break space, zero width no-break space, and the Unicode Space
Separators) together with the LineTerminator production. -/
def isSpaceChar (c : Char) : Bool :=
  c == ' ' || c == '\t' || c == '\n' || c == '\r' || c == '\x0b' || c == '\x0c' ||
  c == '\u00a0' || c == '\u1680' || ('\u2000' ≤ c && c ≤ '\u200a') ||
  c == '\u2028' || c == '\u2029' || c == '\u202f' || c == '\u205f' ||
  c == '\u3000' || c == '\ufeff'

/-- A character the parameter regex `:[^\s/]+` accepts after the colon. -/
def isParamChar (c : Char) : Bool :=
  !(isSpaceChar c) && c != '/'

/-- Core of the template replacement
`path.replace(/:[^\s\/]+/g, m => { names.push(m.slice(1)); return "([^/]+)" })`:
a single left-to-right scan.  `acc` holds the characters of a parameter
name currently being read (`some []` right after a bare `:`). -/
def rpGo : Option (List Char) → List Char → List Char × List String
  | none, [] => ([], [])
  | some [], [] => ([':'], [])
  | some (n :: ns), [] => ("([^/]+)".data, [String.mk (n :: ns)])
  | none, c :: rest =>
      if c = ':' then rpGo (some []) rest
      else
        let p := rpGo none rest
        (c :: p.1, p.2)
  | some acc, c :: rest =>
      if isParamChar c then rpGo (some (acc ++ [c])) rest
      else
        match acc with
        | [] =>
            let p := rpGo none rest
            (':' :: c :: p.1, p.2)
        | n :: ns =>
            let p := rpGo none rest
            ("([^/]+)".data ++ c :: p.1, String.mk (n :: ns) :: p.2)

/-- The replaced pattern source and the parameter names, in order. -/
def replaceParams (s : List Char) : List Char × List String :=
  rpGo none s

/-- A registered plugin.  The `result` field is the boolean the plugin's
handler resolves to for the request under consideration: the wrapped
handler halts the chain when it is `false`. -/
structure Plugin where
  name : String
  result : Bool
deriving DecidableEq, Repr

/-- A route handler value.  `base n` is a user-supplied terminal handler,
identified by `n`; `wrapped` is the closure `addRoute` builds around it
(custom plugins and optional redirect captured, global plugins read from
the router at call time). -/
inductive RouteHandler where
  | base (n : Nat)
  | wrapped (customPlugins : List Plugin) (inner : RouteHandler)
      (redirectTo : Option String)
deriving DecidableEq, Repr

/-- A route table entry, as stored by `addRoute`. -/
structure Route where
  method : String
  path : String
  handler : RouteHandler
deriving DecidableEq, Repr

/-- The value `matchRoute` returns on success. -/
structure MatchResult where
  handler : RouteHandler
  params : List (String × String)
deriving DecidableEq, Repr

/-- Compiling one route's path template: the replaced source is parsed;
the parameter names are collected by the replacement. -/
def compileRoute (path : String) : Option (List RElem) × List String :=
  let p := replaceParams path.data
  (parseSeq p.1, p.2)

/-- The message of the `SyntaxError` the `RegExp` constructor throws. -/
def regexErrorMsg : String := "Invalid regular expression"

/-- `Router.matchRoute`: scan the table in order; for each entry compile
the pattern (a bad pattern throws), test it against the whole path, and
return the first entry that matches with an equal method.  An entry whose
pattern matches but whose method differs is skipped. -/
def matchRoute : List Route → String → String → Except String (Option MatchResult)
  | [], _, _ => .ok none
  | r :: rs, method, url =>
      match (compileRoute r.path).1 with
      | none => .error regexErrorMsg
      | some es =>
          match jsMatch es url.data with
          | some caps =>
              if r.method = method then
                .ok (some ⟨r.handler, (compileRoute r.path).2.zip caps⟩)
              else matchRoute rs method url
          | none => matchRoute rs method url

/-- Reading `params[k]` from the object built by
`paramNames.forEach((name, i) => params[name] = match[i+1])`: the last
assignment to a key wins. -/
def lookupParam (ps : List (String × String)) (k : String) : Option String :=
  ps.foldl (fun acc p => if p.1 = k then some p.2 else acc) none

/-- The router's mutable state: the route table and the global plugins. -/
structure Router where
  routes : List Route
  globalPlugins : List Plugin
deriving DecidableEq, Repr

def Router.empty : Router := ⟨[], []⟩

/-- `Router.addGlobalPlugin`: push onto the global plugin list. -/
def addGlobalPlugin (r : Router) (p : Plugin) : Router :=
  { r with globalPlugins := r.globalPlugins ++ [p] }

/-- `Router.addRoute`: wrap the handler and append the entry.  No
validation of the path template happens here. -/
def addRoute (r : Router) (method path : String) (handler : RouteHandler)
    (customPlugins : List Plugin) (redirectTo : Option String) : Router :=
  { r with routes := r.routes ++ [⟨method, path, .wrapped customPlugins handler redirectTo⟩] }

/-- Observable events of one execution of a wrapped handler.  The boolean
on `pluginRan` records whether the plugin came from the global list. -/
inductive TraceEvent where
  | pluginRan (isGlobal : Bool) (name : String)
  | handlerRan (n : Nat)
  | redirected (url : String)
deriving DecidableEq, Repr

/-- Run a plugin list in order, stopping after the first plugin whose
handler resolves to `false`; returns the events and whether the chain
ran to completion. -/
def runPlugins (isGlobal : Bool) : List Plugin → List TraceEvent × Bool
  | [] => ([], true)
  | p :: ps =>
      if p.result then
        let r := runPlugins isGlobal ps
        (.pluginRan isGlobal p.name :: r.1, r.2)
      else ([.pluginRan isGlobal p.name], false)

/-- Execute a handler value.  A wrapped handler reads the router's current
global plugin list, runs it, then its captured custom plugins, then the
inner handler, then the optional redirect — each phase skipped once a
plugin returns `false`. -/
def runHandler (globals : List Plugin) : RouteHandler → List TraceEvent
  | .base n => [.handlerRan n]
  | .wrapped customs inner redirectTo =>
      let g := runPlugins true globals
      if g.2 then
        let c := runPlugins false customs
        if c.2 then
          g.1 ++ c.1 ++ runHandler globals inner ++
            (match redirectTo with
             | some u => [.redirected u]
             | none => [])
        else g.1 ++ c.1
      else g.1

/-- Resolve a request against the router and execute the matched handler
with the router's current global plugin list. -/
def dispatch (r : Router) (method path : String) : Except String (Option (List TraceEvent)) :=
  match matchRoute r.routes method path with
  | .error e => .error e
  | .ok none => .ok none
  | .ok (some m) => .ok (some (runHandler r.globalPlugins m.handler))

/-- Outcome of one request through a pipeline entry point.  `escaped`
means a failure left the pipeline without a response being written. -/
inductive PipeOutcome where
  | notFound
  | serverError
  | handled
  | escaped
deriving DecidableEq, Repr

/-- `Router.handleRequest`: route resolution runs unprotected; on a match,
`parseBody(req).then(h).catch(500)` converts both a body-decode rejection
and a handler rejection into a 500 response.  `bodyRes` and `handlerRes`
are the outcomes of the external body decoder and of the wrapped handler
for this request. -/
def handleRequestM (r : Router) (method path : String)
    (bodyRes : Except String Unit) (handlerRes : Except String Unit) : PipeOutcome :=
  match matchRoute r.routes method path with
  | .error _ => .escaped
  | .ok none => .notFound
  | .ok (some _) =>
      match bodyRes with
      | .error _ => .serverError
      | .ok _ =>
          match handlerRes with
          | .error _ => .serverError
          | .ok _ => .handled

/-- The server callback built by `Router.createServer`: route resolution
runs unprotected, `await parseBody(req)` runs outside the try/catch, and
only the handler invocation is wrapped in try/catch. -/
def createServerM (r : Router) (method path : String)
    (bodyRes : Except String Unit) (handlerRes : Except String Unit) : PipeOutcome :=
  match matchRoute r.routes method path with
  | .error _ => .escaped
  | .ok none => .notFound
  | .ok (some _) =>
      match bodyRes with
      | .error _ => .escaped
      | .ok _ =>
          match handlerRes with
          | .error _ => .serverError
          | .ok _ => .handled

/-- A declarative test case for the harness. -/
structure TestCase where
  name : String
  method : String
  path : String
  expectedParams : Option (List (String × String))
  expectedMatch : Bool
deriving DecidableEq, Repr

/-- A harness result entry. -/
structure TestResult where
  name : String
  passed : Bool
  message : Option String
deriving DecidableEq, Repr

def paramMismatchMsg : String := "Parameter mismatch"

/-- One iteration of the `forEach` body of `Router.runTests`: the matcher
is called inside try/catch; the presence check compares against
`expectedMatch`; when the presence check passed, a match was produced and
expected parameters were supplied, every expected key must map to the
identical produced value. -/
def runTest1 (routes : List Route) (tc : TestCase) : TestResult :=
  match matchRoute routes tc.method tc.path with
  | .error e => ⟨tc.name, false, some ("Test error: " ++ e)⟩
  | .ok mr =>
      let passed0 := if tc.expectedMatch then mr.isSome else mr.isNone
      let mismatch : Bool :=
        match mr, tc.expectedParams with
        | some m, some eps =>
            passed0 && !(eps.all (fun kv => lookupParam m.params kv.1 == some kv.2))
        | _, _ => false
      let passed := passed0 && !mismatch
      let msg : Option String :=
        if passed then none
        else if mismatch then some paramMismatchMsg
        else some ("Route match failed for " ++ tc.path)
      ⟨tc.name, passed, msg⟩

/-- `Router.runTests`: every case contributes exactly one result. -/
def runTests (routes : List Route) (cases : List TestCase) : List TestResult :=
  cases.map (runTest1 routes)

/-- A character with no special meaning to the template replacement, to
the pattern parser, or to path splitting: not regex syntax, not
whitespace, not the segment delimiter, not the parameter marker. -/
def plainChar (c : Char) : Bool :=
  !(regexSpecials.contains c) && !(isSpaceChar c) && c != '/' && c != ':'

/-- A path-template segment: a literal or a named parameter. -/
inductive Seg where
  | lit (s : String)
  | param (name : String)
deriving DecidableEq, Repr

/-- Well-formedness of one segment: non-empty and made of plain
characters only. -/
def segWF : Seg → Bool
  | .lit s => !s.data.isEmpty && s.data.all plainChar
  | .param n => !n.data.isEmpty && n.data.all plainChar

def segsWF (segs : List Seg) : Bool := segs.all segWF

def renderSeg : Seg → String
  | .lit s => s
  | .param n => ":" ++ n

/-- The path template denoted by a segment list, e.g.
`[lit "items", param "id"] ↦ "/items/:id"`. -/
def renderSegs : List Seg → String
  | [] => ""
  | sg :: rest => "/" ++ renderSeg sg ++ renderSegs rest

/-- The request path denoted by a list of segment values. -/
def renderPath : List String → String
  | [] => ""
  | v :: rest => "/" ++ v ++ renderPath rest

/-- The pattern elements the compiler produces for one segment. -/
def segElems : Seg → List RElem
  | .lit s => s.data.map (fun c => .atom (.ch c))
  | .param _ => [.pgroup (.cls true ['/'])]

/-- The compiled pattern of a whole template. -/
def patOfSegs (segs : List Seg) : List RElem :=
  segs.flatMap (fun sg => .atom (.ch '/') :: segElems sg)

/-- The parameter names of a template, in declaration order. -/
def paramNamesOf : List Seg → List String
  | [] => []
  | .param n :: rest => n :: paramNamesOf rest
  | .lit _ :: rest => paramNamesOf rest

/-- The matcher as the specification's words describe it: the path is
consumed segment by segment; a literal segment matches exactly itself
verbatim; a parameter segment captures exactly one non-empty, slash-free
segment; the whole path must be consumed. -/
def specSegsMatch : List Seg → List Char → Option (List String)
  | [], s => if s.isEmpty then some [] else none
  | _ :: _, [] => none
  | sg :: rest, c :: s1 =>
      if c = '/' then
        match sg with
        | .lit l =>
            if l.data.isPrefixOf s1 then specSegsMatch rest (s1.drop l.data.length)
            else none
        | .param _ =>
            let v := s1.takeWhile (fun c => c != '/')
            if v.isEmpty then none
            else (specSegsMatch rest (s1.dropWhile (fun c => c != '/'))).map
              (fun caps => String.mk v :: caps)
      else none

/-- The pattern source the replacement produces for one segment. -/
def regexSeg : Seg → List Char
  | .lit l => l.data
  | .param _ => "([^/]+)".data

/-- The pattern source the replacement produces for a whole template. -/
def regexOfSegs (segs : List Seg) : List Char :=
  segs.flatMap (fun sg => '/' :: regexSeg sg)

/-- A segment together with the value the request path carries for it:
a literal's value is the literal itself; a parameter's value may be any
slash-free string. -/
def pairOk : Seg × String → Bool
  | (.lit l, v) => v == l
  | (.param _, v) => v.data.all (fun c => c != '/')

/-- No parameter segment carries an empty value. -/
def pairsNoEmptyParam (pairs : List (Seg × String)) : Bool :=
  pairs.all (fun p => match p.1 with | .param _ => !p.2.data.isEmpty | .lit _ => true)

/-- The values carried by the parameter segments, in order. -/
def paramVals : List (Seg × String) → List String
  | [] => []
  | (.param _, v) :: rest => v :: paramVals rest
  | (.lit _, _) :: rest => paramVals rest

/-- The route's pattern compiles (the `RegExp` constructor does not
throw). -/
def routeCompiles (r : Route) : Bool :=
  ((compileRoute r.path).1).isSome

/-- The route's compiled pattern accepts the whole path (method ignored). -/
def routePatternMatches (r : Route) (url : String) : Bool :=
  match (compileRoute r.path).1 with
  | some es => (jsMatch es url.data).isSome
  | none => false

/-- The match result a single route produces for a path. -/
def routeResult (r : Route) (url : String) : Option MatchResult :=
  match (compileRoute r.path).1 with
  | some es =>
      (jsMatch es url.data).map (fun caps => ⟨r.handler, (compileRoute r.path).2.zip caps⟩)
  | none => none

/-- The parameter check of the harness: when a match was produced and
expected parameters were supplied, every expected key must map to the
identical produced value (extra produced parameters are ignored). -/
def paramCheckOk (mr : Option MatchResult) (eps? : Option (List (String × String))) : Bool :=
  match mr, eps? with
  | some m, some eps => eps.all (fun kv => lookupParam m.params kv.1 == some kv.2)
  | _, _ => true

/-- The terminal-handler invocations recorded in a trace. -/
def handlerEvents (tr : List TraceEvent) : List TraceEvent :=
  tr.filter (fun e => match e with | .handlerRan _ => true | _ => false)

/-- Sanity checks of the embedding on concrete inputs. -/
example : compileRoute "/items/:id" =
    (some [.atom (.ch '/'), .atom (.ch 'i'), .atom (.ch 't'), .atom (.ch 'e'),
           .atom (.ch 'm'), .atom (.ch 's'), .atom (.ch '/'),
           .pgroup (.cls true ['/'])], ["id"]) := by decide

instance : DecidableEq (Except String (Option MatchResult)) := fun a b =>
  match a, b with
  | .ok x, .ok y => if h : x = y then .isTrue (by rw [h]) else .isFalse (by simp [h])
  | .error x, .error y => if h : x = y then .isTrue (by rw [h]) else .isFalse (by simp [h])
  | .ok _, .error _ => .isFalse (by simp)
  | .error _, .ok _ => .isFalse (by simp)

example : matchRoute [⟨"GET", "/items/:id", .base 0⟩] "GET" "/items/42" =
    .ok (some ⟨.base 0, [("id", "42")]⟩) := by decide

example : matchRoute [⟨"GET", "/items/:id", .base 0⟩] "GET" "/items/" =
    .ok none := by decide

example : (compileRoute "/a(").1 = none := by decide

/-! ### Lemmas about the backtracking matcher -/

theorem firstFull_append (l1 l2 : List (List Char × List String)) :
    firstFull (l1 ++ l2) = (firstFull l1).elim (firstFull l2) some := by
  induction l1 with
  | nil => simp [firstFull]
  | cons p rest ih => by_cases h : p.1.isEmpty <;> simp [firstFull, h, ih]

theorem firstFull_map (f : List String → List String)
    (l : List (List Char × List String)) :
    firstFull (l.map (fun q => (q.1, f q.2))) = (firstFull l).map f := by
  induction l with
  | nil => simp [firstFull]
  | cons p rest ih => by_cases h : p.1.isEmpty <;> simp [firstFull, h, ih]

theorem firstFull_flatMap_none {α : Type} (ks : List α)
    (f : α → List (List Char × List String))
    (h : ∀ k ∈ ks, firstFull (f k) = none) : firstFull (ks.flatMap f) = none := by
  induction ks with
  | nil => simp [firstFull]
  | cons k ks ih =>
      rw [List.flatMap_cons, firstFull_append, h k (List.mem_cons_self k ks)]
      exact ih (fun k' hk' => h k' (List.mem_cons_of_mem _ hk'))

theorem take_length_takeWhile (p : Char → Bool) (s : List Char) :
    s.take (s.takeWhile p).length = s.takeWhile p := by
  induction s with
  | nil => simp
  | cons c t ih => by_cases h : p c <;> simp [List.takeWhile_cons, h, ih]

theorem drop_length_takeWhile (p : Char → Bool) (s : List Char) :
    s.drop (s.takeWhile p).length = s.dropWhile p := by
  induction s with
  | nil => simp
  | cons c t ih => by_cases h : p c <;> simp [List.takeWhile_cons, List.dropWhile_cons, h, ih]

theorem drop_takeWhile_lt (p : Char → Bool) (s : List Char) (k : Nat)
    (h : k < (s.takeWhile p).length) :
    ∃ c t, s.drop k = c :: t ∧ p c = true := by
  induction s generalizing k with
  | nil => simp at h
  | cons c t ih =>
      by_cases hc : p c
      · cases k with
        | zero => exact ⟨c, t, rfl, hc⟩
        | succ k' =>
            simp only [List.takeWhile_cons, hc, if_true, List.length_cons] at h
            exact ih k' (by omega)
      · simp [List.takeWhile_cons, hc] at h

theorem mem_descendingFrom (m k : Nat) : k ∈ descendingFrom m ↔ 1 ≤ k ∧ k ≤ m := by
  induction m with
  | zero =>
      simp only [descendingFrom, List.not_mem_nil, false_iff]
      omega
  | succ m ih =>
      simp only [descendingFrom, List.mem_cons, ih]
      omega

theorem patOfSegs_cons (sg : Seg) (rest : List Seg) :
    patOfSegs (sg :: rest) = .atom (.ch '/') :: (segElems sg ++ patOfSegs rest) := by
  simp [patOfSegs]

theorem patOfSegs_noFull (rest : List Seg) (c : Char) (t : List Char) (hc : c ≠ '/') :
    firstFull (matchPre (patOfSegs rest) (c :: t)) = none := by
  cases rest with
  | nil => simp [patOfSegs, matchPre, firstFull]
  | cons sg rest' =>
      rw [patOfSegs_cons]
      simp [matchPre, atomMatches, hc, firstFull]

theorem matchPre_lit (l : List Char) (es : List RElem) (s : List Char) :
    matchPre (l.map (fun c => RElem.atom (.ch c)) ++ es) s =
      if l.isPrefixOf s then matchPre es (s.drop l.length) else [] := by
  induction l generalizing s with
  | nil => simp [List.isPrefixOf]
  | cons c l' ih =>
      cases s with
      | nil => simp [matchPre, List.isPrefixOf]
      | cons d s' =>
          simp only [List.map_cons, List.cons_append, matchPre]
          by_cases h : d = c
          · subst h
            simp [atomMatches, List.isPrefixOf, ih]
          · simp [atomMatches, h, List.isPrefixOf, Ne.symm h]

theorem jsMatch_lit (l : List Char) (es : List RElem) (s : List Char) :
    jsMatch (l.map (fun c => RElem.atom (.ch c)) ++ es) s =
      if l.isPrefixOf s then jsMatch es (s.drop l.length) else none := by
  unfold jsMatch
  rw [matchPre_lit]
  by_cases h : l.isPrefixOf s <;> simp [h, firstFull]

theorem atomMatches_nonslash :
    (fun c => atomMatches (RAtom.cls true ['/']) c) = (fun c : Char => c != '/') := by
  funext c
  by_cases h : c = '/' <;> simp [atomMatches, h, List.contains]

theorem jsMatch_pgroup (rest : List Seg) (s : List Char) :
    jsMatch (RElem.pgroup (RAtom.cls true ['/']) :: patOfSegs rest) s =
      (if (s.takeWhile (fun c => c != '/')).isEmpty then none
       else (jsMatch (patOfSegs rest) (s.dropWhile (fun c => c != '/'))).map
         (fun caps => String.mk (s.takeWhile (fun c => c != '/')) :: caps)) := by
  have hpred : atomMatches (RAtom.cls true ['/']) = (fun c : Char => c != '/') :=
    atomMatches_nonslash
  unfold jsMatch
  simp only [matchPre, hpred]
  cases hm : (s.takeWhile (fun c : Char => c != '/')).length with
  | zero =>
      have h0 : s.takeWhile (fun c : Char => c != '/') = [] := List.length_eq_zero.mp hm
      simp [descendingFrom, firstFull, h0]
  | succ m' =>
      have hne : (s.takeWhile (fun c : Char => c != '/')).isEmpty = false := by
        cases h : s.takeWhile (fun c : Char => c != '/') <;> simp_all
      have h2 : firstFull ((descendingFrom m').flatMap
          (fun k => (matchPre (patOfSegs rest) (s.drop k)).map
            (fun q => (q.1, String.mk (s.take k) :: q.2)))) = none := by
        apply firstFull_flatMap_none
        intro k hk
        obtain ⟨h1k, hkm⟩ := (mem_descendingFrom m' k).mp hk
        obtain ⟨c, t, hdrop, hcq⟩ :=
          drop_takeWhile_lt (fun c : Char => c != '/') s k (by omega)
        rw [hdrop]
        simp only [firstFull_map]
        rw [patOfSegs_noFull rest c t (by simpa using hcq)]
        rfl
      rw [descendingFrom, List.flatMap_cons, firstFull_append, h2]
      simp only [firstFull_map]
      rw [← hm, take_length_takeWhile, drop_length_takeWhile]
      cases hj : firstFull (matchPre (patOfSegs rest)
          (s.dropWhile (fun c : Char => c != '/'))) <;> simp [hne, hj]

theorem jsMatch_patOfSegs (segs : List Seg) (s : List Char) :
    jsMatch (patOfSegs segs) s = specSegsMatch segs s := by
  induction segs generalizing s with
  | nil => cases s <;> simp [patOfSegs, jsMatch, matchPre, firstFull, specSegsMatch]
  | cons sg rest ih =>
      rw [patOfSegs_cons]
      cases s with
      | nil => cases sg <;> simp [jsMatch, matchPre, firstFull, specSegsMatch]
      | cons c s1 =>
          by_cases hc : c = '/'
          · subst hc
            have h1 : jsMatch (RElem.atom (RAtom.ch '/') ::
                  (segElems sg ++ patOfSegs rest)) ('/' :: s1)
                = jsMatch (segElems sg ++ patOfSegs rest) s1 := by
              simp [jsMatch, matchPre, atomMatches]
            rw [h1]
            cases sg with
            | lit l =>
                simp only [segElems]
                rw [jsMatch_lit]
                by_cases hp : l.data.isPrefixOf s1 <;>
                  simp [hp, ih, specSegsMatch]
            | param n =>
                simp only [segElems, List.singleton_append]
                rw [jsMatch_pgroup]
                simp [specSegsMatch, ih]
          · cases sg <;>
              simp [jsMatch, matchPre, atomMatches, hc, firstFull, specSegsMatch]

/-! ### Lemmas about the template replacement and the pattern parser -/

theorem plainChar_spec (c : Char) (h : plainChar c = true) :
    regexSpecials.contains c = false ∧ isSpaceChar c = false ∧ c ≠ '/' ∧ c ≠ ':' := by
  simp only [plainChar, Bool.and_eq_true, Bool.not_eq_true', bne_iff_ne, ne_eq] at h
  exact ⟨h.1.1.1, h.1.1.2, h.1.2, h.2⟩

theorem plainChar_ne_special (c x : Char) (h : plainChar c = true)
    (hx : regexSpecials.contains x = true) : c ≠ x := by
  intro he
  subst he
  rw [(plainChar_spec c h).1] at hx
  exact Bool.false_ne_true hx

theorem plainChar_paramChar (c : Char) (h : plainChar c = true) : isParamChar c = true := by
  obtain ⟨-, h2, h3, -⟩ := plainChar_spec c h
  simp [isParamChar, h2, h3]

theorem rpGo_plain (l rest : List Char) (h : ∀ c ∈ l, c ≠ ':') :
    rpGo none (l ++ rest) = ((l ++ (rpGo none rest).1), (rpGo none rest).2) := by
  induction l with
  | nil => simp
  | cons c l' ih =>
      rw [List.cons_append]
      show (if c = ':' then rpGo (some []) (l' ++ rest)
            else (c :: (rpGo none (l' ++ rest)).1, (rpGo none (l' ++ rest)).2)) = _
      rw [if_neg (h c (List.mem_cons_self c l'))]
      rw [ih (fun c' hc' => h c' (List.mem_cons_of_mem _ hc'))]
      simp

theorem rpGo_acc (n : List Char) (acc : List Char) (rest : List Char)
    (hn : ∀ c ∈ n, isParamChar c = true)
    (hrest : ∀ c t, rest = c :: t → isParamChar c = false)
    (hne : acc ++ n ≠ []) :
    rpGo (some acc) (n ++ rest) =
      ("([^/]+)".data ++ (rpGo none rest).1,
       String.mk (acc ++ n) :: (rpGo none rest).2) := by
  induction n generalizing acc with
  | nil =>
      rw [List.append_nil] at hne
      rw [List.nil_append, List.append_nil]
      cases rest with
      | nil =>
          cases acc with
          | nil => exact absurd rfl hne
          | cons a as => simp [rpGo]
      | cons c rest' =>
          have hc := hrest c rest' rfl
          have hcc : c ≠ ':' := by
            intro he
            subst he
            exact absurd hc (by decide)
          have h2 : rpGo none (c :: rest') =
              (c :: (rpGo none rest').1, (rpGo none rest').2) := by
            show (if c = ':' then rpGo (some []) rest'
                  else (c :: (rpGo none rest').1, (rpGo none rest').2)) = _
            rw [if_neg hcc]
          rw [h2]
          cases acc with
          | nil => exact absurd rfl hne
          | cons a as => simp [rpGo, hc]
  | cons c n' ih =>
      have hcp : isParamChar c = true := hn c (List.mem_cons_self c n')
      rw [List.cons_append]
      have h1 : rpGo (some acc) (c :: (n' ++ rest)) =
          rpGo (some (acc ++ [c])) (n' ++ rest) := by
        cases acc <;> simp [rpGo, hcp]
      rw [h1, ih (acc ++ [c]) (fun c' hc' => hn c' (List.mem_cons_of_mem _ hc'))
            (by simp)]
      simp

theorem rpGo_param (n rest : List Char)
    (hn0 : n ≠ []) (hn : ∀ c ∈ n, isParamChar c = true)
    (hrest : ∀ c t, rest = c :: t → isParamChar c = false) :
    rpGo none (':' :: (n ++ rest)) =
      ("([^/]+)".data ++ (rpGo none rest).1, String.mk n :: (rpGo none rest).2) := by
  have h1 : rpGo none (':' :: (n ++ rest)) = rpGo (some []) (n ++ rest) := by
    simp [rpGo]
  rw [h1, rpGo_acc n [] rest hn hrest (by simpa using hn0), List.nil_append]

theorem renderSegs_head (segs : List Seg) (c : Char) (t : List Char)
    (h : (renderSegs segs).data = c :: t) : c = '/' := by
  cases segs with
  | nil => simp [renderSegs] at h
  | cons sg rest =>
      have : (renderSegs (sg :: rest)).data =
          '/' :: ((renderSeg sg).data ++ (renderSegs rest).data) := rfl
      rw [this] at h
      exact (List.cons.inj h).1.symm

theorem segWF_lit (l : String) (h : segWF (Seg.lit l) = true) :
    l.data ≠ [] ∧ ∀ c ∈ l.data, plainChar c = true := by
  simp only [segWF, Bool.and_eq_true, List.all_eq_true] at h
  refine ⟨?_, h.2⟩
  intro he
  rw [he] at h
  simp at h

theorem segWF_param (n : String) (h : segWF (Seg.param n) = true) :
    n.data ≠ [] ∧ ∀ c ∈ n.data, plainChar c = true := by
  simp only [segWF, Bool.and_eq_true, List.all_eq_true] at h
  refine ⟨?_, h.2⟩
  intro he
  rw [he] at h
  simp at h

theorem replaceParams_renderSegs (segs : List Seg) (h : segsWF segs = true) :
    replaceParams (renderSegs segs).data = (regexOfSegs segs, paramNamesOf segs) := by
  unfold replaceParams
  induction segs with
  | nil => simp [renderSegs, rpGo, regexOfSegs, paramNamesOf]
  | cons sg rest ih =>
      rw [segsWF, List.all_cons, Bool.and_eq_true] at h
      obtain ⟨hsg, hrest⟩ := h
      have ihr := ih hrest
      have hdata : (renderSegs (sg :: rest)).data =
          '/' :: ((renderSeg sg).data ++ (renderSegs rest).data) := rfl
      rw [hdata]
      have hslash : rpGo none ('/' :: ((renderSeg sg).data ++ (renderSegs rest).data)) =
          ('/' :: (rpGo none ((renderSeg sg).data ++ (renderSegs rest).data)).1,
           (rpGo none ((renderSeg sg).data ++ (renderSegs rest).data)).2) := by
        simp [rpGo]
      rw [hslash]
      cases sg with
      | lit l =>
          obtain ⟨-, hall⟩ := segWF_lit l hsg
          have hplain : ∀ c ∈ (renderSeg (Seg.lit l)).data, c ≠ ':' := by
            intro c hc
            exact (plainChar_spec c (hall c hc)).2.2.2
          rw [rpGo_plain _ _ hplain, ihr]
          simp [regexOfSegs, paramNamesOf, regexSeg, renderSeg]
      | param n =>
          obtain ⟨hne, hall⟩ := segWF_param n hsg
          have hrseg : (renderSeg (Seg.param n)).data = ':' :: n.data := rfl
          rw [hrseg, List.cons_append]
          have hhead : ∀ c t, (renderSegs rest).data = c :: t → isParamChar c = false := by
            intro c t hct
            rw [renderSegs_head rest c t hct]
            decide
          rw [rpGo_param n.data (renderSegs rest).data hne
            (fun c hc => plainChar_paramChar c (hall c hc)) hhead, ihr]
          have hmk : String.mk n.data = n := rfl
          simp [regexOfSegs, paramNamesOf, regexSeg, hmk]

theorem runParse_afterAtom (a : RAtom) (s : List Char)
    (h : ∀ c t, s = c :: t → c ≠ '+') :
    runParse (.afterAtom a) s = (runParse .base s).map (fun es => RElem.atom a :: es) := by
  cases s with
  | nil => simp [runParse, finish]
  | cons c rest =>
      have hc : c ≠ '+' := h c rest rfl
      show (match step (.afterAtom a) c with
            | none => none
            | some r => (runParse r.1 rest).map (r.2 ++ ·)) = _
      simp only [step, if_neg hc]
      cases hsb : stepBase c with
      | none => simp [runParse, step, hsb]
      | some r =>
          simp only [Option.map_some']
          show (runParse r.1 rest).map ((RElem.atom a :: r.2) ++ ·) = _
          have hrhs : runParse .base (c :: rest) = (runParse r.1 rest).map (r.2 ++ ·) := by
            show (match step .base c with
                  | none => none
                  | some r => (runParse r.1 rest).map (r.2 ++ ·)) = _
            simp only [step, hsb]
          rw [hrhs]
          cases runParse r.1 rest <;> simp

theorem runParse_plain (l rest : List Char)
    (hl : ∀ c ∈ l, plainChar c = true)
    (hrest : ∀ c t, rest = c :: t → c ≠ '+') :
    runParse .base (l ++ rest) =
      (runParse .base rest).map (fun es => l.map (fun c => RElem.atom (.ch c)) ++ es) := by
  induction l with
  | nil => cases hr : runParse .base rest <;> simp [hr]
  | cons c l' ih =>
      have hc := hl c (List.mem_cons_self c l')
      obtain ⟨hcs, -, -, -⟩ := plainChar_spec c hc
      have h1 : c ≠ '(' := plainChar_ne_special c '(' hc (by decide)
      have h2 : c ≠ '[' := plainChar_ne_special c '[' hc (by decide)
      have h3 : c ≠ '.' := plainChar_ne_special c '.' hc (by decide)
      have hmem : c ∉ regexSpecials := by simpa using hcs
      have hsb : stepBase c = some (.afterAtom (.ch c), []) := by
        simp [stepBase, h1, h2, h3, hmem]
      have hhead : ∀ c' t, l' ++ rest = c' :: t → c' ≠ '+' := by
        cases l' with
        | nil => simpa using hrest
        | cons d l'' =>
            intro c' t h'
            rw [List.cons_append] at h'
            injection h' with hd _
            subst hd
            exact plainChar_ne_special d '+' (hl d (by simp)) (by decide)
      rw [List.cons_append]
      show (match step .base c with
            | none => none
            | some r => (runParse r.1 (l' ++ rest)).map (r.2 ++ ·)) = _
      simp only [step, hsb]
      rw [runParse_afterAtom (.ch c) (l' ++ rest) hhead,
        ih (fun c' hc' => hl c' (List.mem_cons_of_mem _ hc')) ]
      cases runParse .base rest <;> simp

theorem runParse_group (rest : List Char) :
    runParse .base ("([^/]+)".data ++ rest) =
      (runParse .base rest).map (fun es => RElem.pgroup (.cls true ['/']) :: es) := by
  have hd : "([^/]+)".data = ['(', '[', '^', '/', ']', '+', ')'] := rfl
  rw [hd]
  cases hr : runParse .base rest <;>
    simp [runParse, step, stepBase, classClose, regexSpecials, hr]

theorem regexOfSegs_head (segs : List Seg) (c : Char) (t : List Char)
    (h : regexOfSegs segs = c :: t) : c = '/' := by
  cases segs with
  | nil => simp [regexOfSegs] at h
  | cons sg rest =>
      have : regexOfSegs (sg :: rest) = '/' :: (regexSeg sg ++ regexOfSegs rest) := by
        simp [regexOfSegs]
      rw [this] at h
      exact (List.cons.inj h).1.symm

theorem parseSeq_regexOfSegs (segs : List Seg) (h : segsWF segs = true) :
    parseSeq (regexOfSegs segs) = some (patOfSegs segs) := by
  unfold parseSeq
  induction segs with
  | nil => simp [regexOfSegs, runParse, finish, patOfSegs]
  | cons sg rest ih =>
      rw [segsWF, List.all_cons, Bool.and_eq_true] at h
      obtain ⟨hsg, hrest⟩ := h
      have ihr := ih hrest
      have hro : regexOfSegs (sg :: rest) = '/' :: (regexSeg sg ++ regexOfSegs rest) := by
        simp [regexOfSegs]
      rw [hro]
      have hslash : stepBase '/' = some (.afterAtom (.ch '/'), []) := by decide
      show (match step .base '/' with
            | none => none
            | some r => (runParse r.1 (regexSeg sg ++ regexOfSegs rest)).map (r.2 ++ ·)) = _
      simp only [step, hslash]
      have hheadTail : ∀ c t, regexOfSegs rest = c :: t → c ≠ '+' := by
        intro c t hct
        rw [regexOfSegs_head rest c t hct]
        decide
      cases sg with
      | lit l =>
          obtain ⟨hne, hall⟩ := segWF_lit l hsg
          have hhead : ∀ c t, regexSeg (Seg.lit l) ++ regexOfSegs rest = c :: t → c ≠ '+' := by
            cases hld : l.data with
            | nil => exact absurd hld hne
            | cons d l'' =>
                intro c t hct
                simp only [regexSeg, hld, List.cons_append] at hct
                injection hct with hd _
                subst hd
                refine plainChar_ne_special d '+' ?_ (by decide)
                exact hall d (by rw [hld]; exact List.mem_cons_self d l'')
          rw [runParse_afterAtom (.ch '/') _ hhead]
          show ((runParse .base (regexSeg (Seg.lit l) ++ regexOfSegs rest)).map _).map _ = _
          rw [show regexSeg (Seg.lit l) = l.data from rfl,
            runParse_plain l.data (regexOfSegs rest) hall hheadTail, ihr]
          simp [patOfSegs_cons, segElems]
      | param n =>
          have hhead : ∀ c t, regexSeg (Seg.param n) ++ regexOfSegs rest = c :: t → c ≠ '+' := by
            intro c t hct
            have : regexSeg (Seg.param n) ++ regexOfSegs rest =
                '(' :: ("[^/]+)".data ++ regexOfSegs rest) := rfl
            rw [this] at hct
            injection hct with hd _
            subst hd
            decide
          rw [runParse_afterAtom (.ch '/') _ hhead]
          show ((runParse .base (regexSeg (Seg.param n) ++ regexOfSegs rest)).map _).map _ = _
          rw [show regexSeg (Seg.param n) = "([^/]+)".data from rfl,
            runParse_group (regexOfSegs rest), ihr]
          simp [patOfSegs_cons, segElems]

theorem compileRoute_renderSegs (segs : List Seg) (h : segsWF segs = true) :
    compileRoute (renderSegs segs) = (some (patOfSegs segs), paramNamesOf segs) := by
  unfold compileRoute
  rw [replaceParams_renderSegs segs h]
  show (parseSeq (regexOfSegs segs), paramNamesOf segs) =
    (some (patOfSegs segs), paramNamesOf segs)
  rw [parseSeq_regexOfSegs segs h]

/-! ### Path-level characterization of the compiled matcher -/

theorem isPrefixOf_append_self (a t : List Char) : a.isPrefixOf (a ++ t) = true := by
  induction a with
  | nil => simp [List.isPrefixOf]
  | cons x xs ih => simp [List.isPrefixOf, ih]

theorem takeWhile_append_of_all (p : Char → Bool) (l r : List Char)
    (h : ∀ c ∈ l, p c = true) :
    (l ++ r).takeWhile p = l ++ r.takeWhile p := by
  induction l with
  | nil => rfl
  | cons c l' ih =>
      rw [List.cons_append, List.takeWhile_cons, if_pos (h c (List.mem_cons_self c l'))]
      rw [ih (fun c' hc' => h c' (List.mem_cons_of_mem _ hc')), List.cons_append]

theorem dropWhile_append_of_all (p : Char → Bool) (l r : List Char)
    (h : ∀ c ∈ l, p c = true) :
    (l ++ r).dropWhile p = r.dropWhile p := by
  induction l with
  | nil => rfl
  | cons c l' ih =>
      rw [List.cons_append, List.dropWhile_cons, if_pos (h c (List.mem_cons_self c l'))]
      exact ih (fun c' hc' => h c' (List.mem_cons_of_mem _ hc'))

theorem renderPath_head (vals : List String) (c : Char) (t : List Char)
    (h : (renderPath vals).data = c :: t) : c = '/' := by
  cases vals with
  | nil => simp [renderPath] at h
  | cons v rest =>
      have : (renderPath (v :: rest)).data =
          '/' :: (v.data ++ (renderPath rest).data) := rfl
      rw [this] at h
      exact (List.cons.inj h).1.symm

theorem specSegsMatch_renderPath (pairs : List (Seg × String))
    (h : ∀ p ∈ pairs, pairOk p = true) :
    specSegsMatch (pairs.map Prod.fst) (renderPath (pairs.map Prod.snd)).data =
      (if pairsNoEmptyParam pairs then some (paramVals pairs) else none) := by
  induction pairs with
  | nil => simp [renderPath, specSegsMatch, pairsNoEmptyParam, paramVals]
  | cons pr rest ih =>
      obtain ⟨sg, v⟩ := pr
      have hok := h (sg, v) (List.mem_cons_self _ _)
      have ihr := ih (fun p hp => h p (List.mem_cons_of_mem _ hp))
      simp only [List.map_cons]
      have hdata : (renderPath (v :: rest.map Prod.snd)).data =
          '/' :: (v.data ++ (renderPath (rest.map Prod.snd)).data) := rfl
      rw [hdata]
      have htail : ∀ c t, (renderPath (rest.map Prod.snd)).data = c :: t → c = '/' :=
        renderPath_head (rest.map Prod.snd)
      cases sg with
      | lit l =>
          have hv : v = l := by simpa [pairOk] using hok
          subst hv
          show specSegsMatch (Seg.lit v :: rest.map Prod.fst)
              ('/' :: (v.data ++ (renderPath (rest.map Prod.snd)).data)) = _
          simp only [specSegsMatch, if_pos rfl]
          rw [if_pos (isPrefixOf_append_self v.data _), List.drop_left, ihr]
          have h1 : pairsNoEmptyParam ((Seg.lit v, v) :: rest) = pairsNoEmptyParam rest := by
            simp [pairsNoEmptyParam]
          have h2 : paramVals ((Seg.lit v, v) :: rest) = paramVals rest := by
            simp [paramVals]
          rw [h1, h2]
          simp
      | param n =>
          have hvs : ∀ c ∈ v.data, (c != '/') = true := by
            simpa [pairOk, List.all_eq_true] using hok
          show specSegsMatch (Seg.param n :: rest.map Prod.fst)
              ('/' :: (v.data ++ (renderPath (rest.map Prod.snd)).data)) = _
          simp only [specSegsMatch, if_pos rfl]
          have htw : (v.data ++ (renderPath (rest.map Prod.snd)).data).takeWhile
              (fun c => c != '/') = v.data := by
            rw [takeWhile_append_of_all _ _ _ hvs]
            cases hvd : (renderPath (rest.map Prod.snd)).data with
            | nil => simp
            | cons c t =>
                rw [htail c t hvd]
                simp [List.takeWhile_cons]
          have hdw : (v.data ++ (renderPath (rest.map Prod.snd)).data).dropWhile
              (fun c => c != '/') = (renderPath (rest.map Prod.snd)).data := by
            rw [dropWhile_append_of_all _ _ _ hvs]
            cases hvd : (renderPath (rest.map Prod.snd)).data with
            | nil => simp
            | cons c t =>
                rw [htail c t hvd]
                simp [List.dropWhile_cons]
          rw [htw, hdw, ihr]
          have h1 : pairsNoEmptyParam ((Seg.param n, v) :: rest) =
              (!v.data.isEmpty && pairsNoEmptyParam rest) := by
            simp [pairsNoEmptyParam]
          have h2 : paramVals ((Seg.param n, v) :: rest) = v :: paramVals rest := by
            simp [paramVals]
          rw [h1, h2]
          have hmk : String.mk v.data = v := rfl
          cases hve : v.data.isEmpty <;> cases hne : pairsNoEmptyParam rest <;>
            simp [hve, hne, hmk]

/-! ### Parameter binding and route-scan lemmas -/

theorem zip_paramNames_paramVals (pairs : List (Seg × String)) :
    (paramNamesOf (pairs.map Prod.fst)).zip (paramVals pairs) =
      pairs.filterMap (fun p => match p.1 with
        | .param n => some (n, p.2)
        | .lit _ => none) := by
  induction pairs with
  | nil => rfl
  | cons pr rest ih =>
      obtain ⟨sg, v⟩ := pr
      cases sg <;>
        simp only [List.map_cons, paramNamesOf, paramVals, List.filterMap_cons,
          List.zip_cons_cons, ih]

theorem lookupParam_no_key (ps : List (String × String)) (k : String)
    (acc : Option String) (h : ∀ p ∈ ps, p.1 ≠ k) :
    ps.foldl (fun acc p => if p.1 = k then some p.2 else acc) acc = acc := by
  induction ps generalizing acc with
  | nil => rfl
  | cons q ps ih =>
      rw [List.foldl_cons, if_neg (h q (List.mem_cons_self _ _))]
      exact ih acc (fun p hp => h p (List.mem_cons_of_mem _ hp))

theorem lookupParam_nodup (ps : List (String × String)) (k v : String)
    (hnd : (ps.map Prod.fst).Nodup) (hmem : (k, v) ∈ ps) :
    lookupParam ps k = some v := by
  induction ps with
  | nil => simp at hmem
  | cons q ps ih =>
      rw [List.map_cons, List.nodup_cons] at hnd
      rcases List.mem_cons.mp hmem with heq | hmem'
      · subst heq
        unfold lookupParam
        rw [List.foldl_cons, if_pos rfl]
        apply lookupParam_no_key
        intro p hp hpk
        have hk : p.1 ∈ ps.map Prod.fst := List.mem_map_of_mem Prod.fst hp
        rw [hpk] at hk
        exact hnd.1 hk
      · have hk : k ∈ ps.map Prod.fst := by
          have := List.mem_map_of_mem Prod.fst hmem'
          simpa using this
        have h1 : q.1 ≠ k := fun he => hnd.1 (by rw [he]; exact hk)
        unfold lookupParam
        rw [List.foldl_cons, if_neg h1]
        exact ih hnd.2 hmem'

theorem matchRoute_cons_eq (r : Route) (rs : List Route) (method url : String) :
    matchRoute (r :: rs) method url =
      (match (compileRoute r.path).1 with
       | none => Except.error regexErrorMsg
       | some es =>
           match jsMatch es url.data with
           | some caps =>
               if r.method = method then
                 Except.ok (some ⟨r.handler, (compileRoute r.path).2.zip caps⟩)
               else matchRoute rs method url
           | none => matchRoute rs method url) := rfl

theorem matchRoute_cons_skip (r : Route) (rs : List Route) (method url : String)
    (hcomp : routeCompiles r = true)
    (hskip : routePatternMatches r url = false ∨ r.method ≠ method) :
    matchRoute (r :: rs) method url = matchRoute rs method url := by
  rw [matchRoute_cons_eq]
  cases hc : (compileRoute r.path).1 with
  | none =>
      rw [routeCompiles, hc] at hcomp
      simp at hcomp
  | some es =>
      simp only []
      cases hj : jsMatch es url.data with
      | none => simp only []
      | some caps =>
          simp only []
          rcases hskip with hpm | hm
          · rw [routePatternMatches, hc] at hpm
            simp [hj] at hpm
          · rw [if_neg hm]

theorem matchRoute_cons_hit (r : Route) (rs : List Route) (method url : String)
    (hpm : routePatternMatches r url = true) (hm : r.method = method) :
    matchRoute (r :: rs) method url = .ok (routeResult r url) := by
  rw [matchRoute_cons_eq]
  unfold routeResult
  cases hc : (compileRoute r.path).1 with
  | none =>
      rw [routePatternMatches, hc] at hpm
      simp at hpm
  | some es =>
      simp only []
      cases hj : jsMatch es url.data with
      | none =>
          rw [routePatternMatches, hc] at hpm
          simp [hj] at hpm
      | some caps =>
          simp only [hj]
          rw [if_pos hm]
          rfl

theorem matchRoute_append_skip (l : List Route) (rs : List Route) (method url : String)
    (h : ∀ r ∈ l, routeCompiles r = true ∧
      (routePatternMatches r url = false ∨ r.method ≠ method)) :
    matchRoute (l ++ rs) method url = matchRoute rs method url := by
  induction l with
  | nil => rfl
  | cons r l' ih =>
      rw [List.cons_append,
        matchRoute_cons_skip r (l' ++ rs) method url
          (h r (List.mem_cons_self _ _)).1 (h r (List.mem_cons_self _ _)).2]
      exact ih (fun r' hr' => h r' (List.mem_cons_of_mem _ hr'))

/-! ### Lemmas about the interceptor chain -/

theorem runPlugins_true (b : Bool) (g : List Plugin)
    (h : ∀ q ∈ g, q.result = true) :
    runPlugins b g = (g.map (fun q => TraceEvent.pluginRan b q.name), true) := by
  induction g with
  | nil => rfl
  | cons p ps ih =>
      rw [runPlugins, if_pos (h p (List.mem_cons_self _ _)),
        ih (fun q hq => h q (List.mem_cons_of_mem _ hq))]
      rfl

theorem runPlugins_halt (b : Bool) (g1 : List Plugin) (p : Plugin) (g2 : List Plugin)
    (h1 : ∀ q ∈ g1, q.result = true) (hp : p.result = false) :
    runPlugins b (g1 ++ p :: g2) =
      (g1.map (fun q => TraceEvent.pluginRan b q.name) ++ [.pluginRan b p.name], false) := by
  induction g1 with
  | nil =>
      rw [List.nil_append, runPlugins, if_neg (by rw [hp]; exact Bool.false_ne_true)]
      rfl
  | cons q g1' ih =>
      rw [List.cons_append, runPlugins, if_pos (h1 q (List.mem_cons_self _ _)),
        ih (fun q' hq' => h1 q' (List.mem_cons_of_mem _ hq'))]
      rfl

theorem runPlugins_events (b : Bool) (ps : List Plugin) (e : TraceEvent)
    (h : e ∈ (runPlugins b ps).1) : ∃ nm, e = .pluginRan b nm := by
  induction ps with
  | nil => simp [runPlugins] at h
  | cons p ps ih =>
      rw [runPlugins] at h
      by_cases hp : p.result = true
      · rw [if_pos hp] at h
        rcases List.mem_cons.mp h with he | he
        · exact ⟨p.name, he⟩
        · exact ih he
      · rw [if_neg hp] at h
        rcases List.mem_cons.mp h with he | he
        · exact ⟨p.name, he⟩
        · simp at he

/-- One-step unfolding of the execution of a wrapped handler. -/
theorem runHandler_wrapped_eq (globals customs : List Plugin) (inner : RouteHandler)
    (rd : Option String) :
    runHandler globals (.wrapped customs inner rd) =
      (if (runPlugins true globals).2 then
        (if (runPlugins false customs).2 then
          (runPlugins true globals).1 ++ (runPlugins false customs).1 ++
            runHandler globals inner ++
            (match rd with | some u => [TraceEvent.redirected u] | none => [])
         else (runPlugins true globals).1 ++ (runPlugins false customs).1)
       else (runPlugins true globals).1) := rfl

/-! ### Claim theorems -/

/-- **C1.** `matchRoute` scans the route table in registration order and
returns the first entry whose compiled pattern matches the whole path and
whose method equals the request method: when every route before `R1`
either fails to match the path or differs in method, and `R1` matches on
both counts, the scan resolves to `R1` — even though the later route `R2`
(or anything after `R1`) may also match; and an entry whose pattern
matches but whose method differs is skipped without ending the scan. -/
theorem c1_first_match_wins (l1 l2 l3 : List Route) (R1 R2 : Route)
    (method url : String)
    (h1 : ∀ r ∈ l1, routeCompiles r = true ∧
      (routePatternMatches r url = false ∨ r.method ≠ method))
    (hR1p : routePatternMatches R1 url = true) (hR1m : R1.method = method) :
    matchRoute (l1 ++ R1 :: (l2 ++ R2 :: l3)) method url = .ok (routeResult R1 url) ∧
    (∀ (r : Route) (rs : List Route), routeCompiles r = true →
      routePatternMatches r url = true → r.method ≠ method →
      matchRoute (r :: rs) method url = matchRoute rs method url) := by
  constructor
  · rw [matchRoute_append_skip l1 _ method url h1]
    exact matchRoute_cons_hit R1 _ method url hR1p hR1m
  · intro r rs hc hp hm
    exact matchRoute_cons_skip r rs method url hc (Or.inr hm)

/-- Witness for C1: a POST route with the same pattern is registered
first; a GET request skips it (method mismatch) and resolves to the first
GET route, not the later identical one. -/
theorem c1_first_match_wins_witness :
    matchRoute [⟨"POST", "/items/:id", .base 1⟩, ⟨"GET", "/items/:id", .base 2⟩,
        ⟨"GET", "/items/:id", .base 3⟩] "GET" "/items/42" =
      .ok (some ⟨.base 2, [("id", "42")]⟩) := by
  have h := (c1_first_match_wins [⟨"POST", "/items/:id", .base 1⟩] [] []
    ⟨"GET", "/items/:id", .base 2⟩ ⟨"GET", "/items/:id", .base 3⟩ "GET" "/items/42"
    (by decide) (by decide) rfl).1
  exact h

/-- **C2.** The code evaluated at the failing input: `addRoute` accepts
the invalid template `"/a("` with no validation — the route is simply
appended — and the pattern-compilation failure (the `RegExp` constructor's
`SyntaxError`) surfaces only when `matchRoute` runs at request time. -/
theorem c2_lazy_compilation :
    (addRoute Router.empty "GET" "/a(" (.base 0) [] none).routes =
      [⟨"GET", "/a(", .wrapped [] (.base 0) none⟩] ∧
    matchRoute (addRoute Router.empty "GET" "/a(" (.base 0) [] none).routes
      "GET" "/a(" = .error regexErrorMsg :=
  ⟨rfl, rfl⟩

/-- **C3.** The code evaluated at the failing input: the literal template
`"/a.b"` is used as pattern syntax without escaping, so its dot matches
any character and the path `"/aXb"` — not character-for-character equal to
the template's literal — is accepted. -/
theorem c3_unescaped_literal :
    matchRoute [⟨"GET", "/a.b", .base 0⟩] "GET" "/aXb" =
      .ok (some ⟨.base 0, []⟩) ∧ "/aXb" ≠ "/a.b" :=
  ⟨rfl, by decide⟩

/-- **C4 counterexample.** After registering GET `/items/:id` with handler
`h = .base 0`, dispatching GET `/items/42` yields parameters `{id: "42"}`
but the handler `matchRoute` returns is the wrapper `addRoute` stored, not
the registered reference `h` itself. -/
theorem c4_counterexample :
    matchRoute (addRoute Router.empty "GET" "/items/:id" (.base 0) [] none).routes
        "GET" "/items/42" =
      .ok (some ⟨.wrapped [] (.base 0) none, [("id", "42")]⟩) ∧
    RouteHandler.wrapped [] (.base 0) none ≠ RouteHandler.base 0 :=
  ⟨rfl, by decide⟩

/-- **C4 (amended).** Round-trip: registering GET `/items/:id` with any
handler `h`, custom plugins and redirect, then dispatching GET
`/items/42`, yields parameters `{id: "42"}` and the wrapper closure that
`addRoute` built around `h` (which invokes `h` after the interceptor
chain) — not the bare registered reference. -/
theorem c4_roundtrip_amended (h : RouteHandler) (customs : List Plugin)
    (rd : Option String) :
    matchRoute (addRoute Router.empty "GET" "/items/:id" h customs rd).routes
        "GET" "/items/42" =
      .ok (some ⟨.wrapped customs h rd, [("id", "42")]⟩) := rfl

/-- **C5 counterexample.** A plugin's handler resolves to a boolean, so
`true` (continue) and `false` (halt) are its only possible outcomes; for
both, the only terminal handler that can run is the registered one
(`.base 0`) — halting runs no handler at all — so no interceptor outcome
ever supplies a replacement handler that runs in its place. -/
theorem c5_counterexample :
    handlerEvents (runHandler [⟨"g", true⟩] (.wrapped [] (.base 0) none)) =
      [TraceEvent.handlerRan 0] ∧
    handlerEvents (runHandler [⟨"g", false⟩] (.wrapped [] (.base 0) none)) = [] :=
  ⟨rfl, rfl⟩

/-- **C5 (amended).** Interceptors yield only a boolean outcome — continue
(`true`) or halt (`false`); no Override outcome exists: for any global and
route-local plugin lists, every terminal-handler invocation recorded while
executing a wrapped handler is an invocation of the originally registered
handler `n`. -/
theorem c5_no_override (globals customs : List Plugin) (n : Nat)
    (rd : Option String) (k : Nat)
    (hk : TraceEvent.handlerRan k ∈
      runHandler globals (.wrapped customs (.base n) rd)) :
    k = n := by
  rw [runHandler_wrapped_eq] at hk
  by_cases hg : (runPlugins true globals).2 = true
  · rw [if_pos hg] at hk
    by_cases hc : (runPlugins false customs).2 = true
    · rw [if_pos hc] at hk
      rcases List.mem_append.mp hk with hk1 | hk1
      · rcases List.mem_append.mp hk1 with hk2 | hk2
        · rcases List.mem_append.mp hk2 with hk3 | hk3
          · obtain ⟨nm, he⟩ := runPlugins_events true globals _ hk3
            simp at he
          · obtain ⟨nm, he⟩ := runPlugins_events false customs _ hk3
            simp at he
        · rw [show runHandler globals (.base n) = [.handlerRan n] from rfl] at hk2
          rcases List.mem_singleton.mp hk2 with he
          injection he
      · cases rd with
        | some u => simp at hk1
        | none => simp at hk1
    · rw [if_neg hc] at hk
      rcases List.mem_append.mp hk with hk1 | hk1
      · obtain ⟨nm, he⟩ := runPlugins_events true globals _ hk1
        simp at he
      · obtain ⟨nm, he⟩ := runPlugins_events false customs _ hk1
        simp at he
  · rw [if_neg hg] at hk
    obtain ⟨nm, he⟩ := runPlugins_events true globals _ hk
    simp at he

/-- Witness for C5's amended theorem at a concrete trace. -/
theorem c5_no_override_witness :
    (7 : Nat) = 7 ∧
    TraceEvent.handlerRan 7 ∈
      runHandler [⟨"g", true⟩] (.wrapped [⟨"l", true⟩] (.base 7) none) :=
  ⟨c5_no_override [⟨"g", true⟩] [⟨"l", true⟩] 7 none 7 (by decide), by decide⟩

theorem filterMap_param_keys (pairs : List (Seg × String)) :
    ((pairs.filterMap (fun p => match p.1 with
      | Seg.param n => some (n, p.2)
      | Seg.lit _ => none)).map Prod.fst) = paramNamesOf (pairs.map Prod.fst) := by
  induction pairs with
  | nil => rfl
  | cons pr rest ih =>
      obtain ⟨sg, v⟩ := pr
      cases sg <;>
        simp only [List.filterMap_cons, List.map_cons, paramNamesOf, ih]

theorem matchRoute_single_template (pairs : List (Seg × String)) (method : String)
    (hd : RouteHandler)
    (hwf : segsWF (pairs.map Prod.fst) = true)
    (hok : ∀ p ∈ pairs, pairOk p = true) :
    matchRoute [⟨method, renderSegs (pairs.map Prod.fst), hd⟩] method
        (renderPath (pairs.map Prod.snd)) =
      (if pairsNoEmptyParam pairs then
        .ok (some ⟨hd, (paramNamesOf (pairs.map Prod.fst)).zip (paramVals pairs)⟩)
       else .ok none) := by
  have hcomp := compileRoute_renderSegs (pairs.map Prod.fst) hwf
  have h1 : (compileRoute (renderSegs (pairs.map Prod.fst))).1 =
      some (patOfSegs (pairs.map Prod.fst)) := by rw [hcomp]
  have h2 : (compileRoute (renderSegs (pairs.map Prod.fst))).2 =
      paramNamesOf (pairs.map Prod.fst) := by rw [hcomp]
  have hjs : jsMatch (patOfSegs (pairs.map Prod.fst))
      (renderPath (pairs.map Prod.snd)).data =
      (if pairsNoEmptyParam pairs then some (paramVals pairs) else none) := by
    rw [jsMatch_patOfSegs, specSegsMatch_renderPath pairs hok]
  rw [matchRoute_cons_eq]
  simp only [h1, hjs, h2]
  cases hne : pairsNoEmptyParam pairs <;> simp [hne, matchRoute]

/-- **C6.** For every well-formed template with a parameter `:name` and a
request path whose segments carry the template's literals verbatim and
non-empty slash-free values for its parameters, dispatch succeeds and the
produced parameters bind `name` to its corresponding segment value `v`;
and a path in which some parameter's corresponding segment is empty never
matches the template. -/
theorem c6_param_capture (pairs : List (Seg × String)) (name v : String)
    (method : String) (hd : RouteHandler)
    (hwf : segsWF (pairs.map Prod.fst) = true)
    (hok : ∀ p ∈ pairs, pairOk p = true)
    (hne : pairsNoEmptyParam pairs = true)
    (hmem : (Seg.param name, v) ∈ pairs)
    (hnodup : (paramNamesOf (pairs.map Prod.fst)).Nodup) :
    (matchRoute [⟨method, renderSegs (pairs.map Prod.fst), hd⟩] method
        (renderPath (pairs.map Prod.snd)) =
      .ok (some ⟨hd, (paramNamesOf (pairs.map Prod.fst)).zip (paramVals pairs)⟩) ∧
     lookupParam ((paramNamesOf (pairs.map Prod.fst)).zip (paramVals pairs)) name =
       some v) ∧
    (∀ pairs2 : List (Seg × String),
      segsWF (pairs2.map Prod.fst) = true →
      (∀ p ∈ pairs2, pairOk p = true) →
      pairsNoEmptyParam pairs2 = false →
      matchRoute [⟨method, renderSegs (pairs2.map Prod.fst), hd⟩] method
        (renderPath (pairs2.map Prod.snd)) = .ok none) := by
  refine ⟨⟨?_, ?_⟩, ?_⟩
  · rw [matchRoute_single_template pairs method hd hwf hok, if_pos hne]
  · rw [zip_paramNames_paramVals]
    apply lookupParam_nodup
    · rw [filterMap_param_keys]
      exact hnodup
    · exact List.mem_filterMap.mpr ⟨(Seg.param name, v), hmem, rfl⟩
  · intro pairs2 hwf2 hok2 hne2
    rw [matchRoute_single_template pairs2 method hd hwf2 hok2, if_neg (by rw [hne2]; exact Bool.false_ne_true)]

/-- Witness for C6: template `/items/:id`, path `/items/42` binds
`id ↦ "42"`; the same template with an empty segment (`/items/` rendered
from value `""`) does not match. -/
theorem c6_param_capture_witness :
    (matchRoute [⟨"GET", renderSegs [Seg.lit "items", Seg.param "id"], .base 0⟩] "GET"
        (renderPath ["items", "42"]) =
      .ok (some ⟨.base 0, [("id", "42")]⟩) ∧
     lookupParam [("id", "42")] "id" = some "42") ∧
    matchRoute [⟨"GET", renderSegs [Seg.lit "items", Seg.param "id"], .base 0⟩] "GET"
        (renderPath ["items", ""]) = .ok none := by
  have h := c6_param_capture [(Seg.lit "items", "items"), (Seg.param "id", "42")]
    "id" "42" "GET" (.base 0) (by decide) (by decide) (by decide) (by decide)
    (by decide)
  exact ⟨h.1, h.2 [(Seg.lit "items", "items"), (Seg.param "id", "")]
    (by decide) (by decide) (by decide)⟩

/-- **C7.** If a global interceptor halts (returns `false`) after every
global before it continued, the wrapped handler's trace ends with that
plugin: no remaining global, no route-local interceptor, no terminal
handler and no redirect runs; and in the local phase, when all globals
continue and a local interceptor halts after the locals before it
continued, every later local, the terminal handler and the redirect are
likewise skipped. -/
theorem c7_halt_skips_rest (g1 : List Plugin) (p : Plugin) (g2 : List Plugin)
    (customs : List Plugin) (n : Nat) (rd : Option String)
    (hp : p.result = false) (hg1 : ∀ q ∈ g1, q.result = true) :
    runHandler (g1 ++ p :: g2) (.wrapped customs (.base n) rd) =
      g1.map (fun q => TraceEvent.pluginRan true q.name) ++
        [.pluginRan true p.name] ∧
    (∀ (g c1 : List Plugin) (p' : Plugin) (c2 : List Plugin),
      (∀ q ∈ g, q.result = true) → (∀ q ∈ c1, q.result = true) →
      p'.result = false →
      runHandler g (.wrapped (c1 ++ p' :: c2) (.base n) rd) =
        g.map (fun q => TraceEvent.pluginRan true q.name) ++
          (c1.map (fun q => TraceEvent.pluginRan false q.name) ++
            [.pluginRan false p'.name])) := by
  constructor
  · rw [runHandler_wrapped_eq, runPlugins_halt true g1 p g2 hg1 hp]
    simp
  · intro g c1 p' c2 hg hc1 hp'
    rw [runHandler_wrapped_eq, runPlugins_true true g hg,
      runPlugins_halt false c1 p' c2 hc1 hp']
    simp

/-- Witness for C7: a halting global plugin stops the chain after itself;
a halting local plugin stops the chain after the globals and itself. -/
theorem c7_halt_skips_rest_witness :
    runHandler [⟨"a", true⟩, ⟨"h", false⟩, ⟨"z", true⟩]
        (.wrapped [⟨"l", true⟩] (.base 5) (some "/x")) =
      [.pluginRan true "a", .pluginRan true "h"] ∧
    runHandler [⟨"a", true⟩]
        (.wrapped [⟨"l", true⟩, ⟨"hl", false⟩, ⟨"zl", true⟩] (.base 5) (some "/x")) =
      [.pluginRan true "a", .pluginRan false "l", .pluginRan false "hl"] := by
  have h := c7_halt_skips_rest [⟨"a", true⟩] ⟨"h", false⟩ [⟨"z", true⟩]
    [⟨"l", true⟩] 5 (some "/x") rfl (by decide)
  refine ⟨h.1, ?_⟩
  have h2 := h.2 [⟨"a", true⟩] [⟨"l", true⟩] ⟨"hl", false⟩ [⟨"zl", true⟩]
    (by decide) (by decide) rfl
  exact h2

/-- **C8.** The code evaluated at the failing input: with a matched route,
a body-decode failure is converted to a 500 response by `handleRequest`
(whose `.catch` covers the whole promise chain), but the server callback
built by `createServer` awaits `parseBody` outside its try/catch, so the
same failure escapes the callback with no response written; a
terminal-handler failure, by contrast, is converted to a 500 by both
entry points. -/
theorem c8_decode_failure_escapes :
    handleRequestM ⟨[⟨"GET", "/", .base 0⟩], []⟩ "GET" "/"
      (.error "Unexpected end of JSON input") (.ok ()) = .serverError ∧
    createServerM ⟨[⟨"GET", "/", .base 0⟩], []⟩ "GET" "/"
      (.error "Unexpected end of JSON input") (.ok ()) = .escaped ∧
    handleRequestM ⟨[⟨"GET", "/", .base 0⟩], []⟩ "GET" "/"
      (.ok ()) (.error "handler threw") = .serverError ∧
    createServerM ⟨[⟨"GET", "/", .base 0⟩], []⟩ "GET" "/"
      (.ok ()) (.error "handler threw") = .serverError :=
  ⟨rfl, rfl, rfl, rfl⟩

/-- **C9.** The harness: every test case contributes exactly one result;
a case where `matchRoute` throws is recorded as failed with a diagnostic
message (and `runTests` itself returns normally rather than propagating);
otherwise the case passes iff match-presence equals `expectedMatch` and,
when a match was produced and expected parameters were supplied, every
expected key maps to the identical produced value (extra produced
parameters are ignored). -/
theorem c9_harness (routes : List Route) (cases' : List TestCase) (tc : TestCase) :
    runTests routes cases' = cases'.map (runTest1 routes) ∧
    (∀ e, matchRoute routes tc.method tc.path = .error e →
      runTest1 routes tc = ⟨tc.name, false, some ("Test error: " ++ e)⟩) ∧
    (∀ mr, matchRoute routes tc.method tc.path = .ok mr →
      ((runTest1 routes tc).passed = true ↔
        ((mr.isSome = tc.expectedMatch) ∧
         paramCheckOk mr tc.expectedParams = true))) := by
  refine ⟨rfl, ?_, ?_⟩
  · intro e he
    simp only [runTest1, he]
  · intro mr hmr
    simp only [runTest1, hmr]
    cases mr with
    | none =>
        cases hem : tc.expectedMatch <;>
          cases hep : tc.expectedParams <;> simp [paramCheckOk]
    | some m =>
        cases hem : tc.expectedMatch <;>
          cases hep : tc.expectedParams <;> simp [paramCheckOk]

/-- Witness for C9: a concrete one-case suite against `GET /users/:id`. -/
theorem c9_harness_witness :
    runTests [⟨"GET", "/users/:id", .base 0⟩]
        [⟨"t1", "GET", "/users/1", some [("id", "1")], true⟩] =
      [runTest1 [⟨"GET", "/users/:id", .base 0⟩]
        ⟨"t1", "GET", "/users/1", some [("id", "1")], true⟩] ∧
    (runTest1 [⟨"GET", "/users/:id", .base 0⟩]
        ⟨"t1", "GET", "/users/1", some [("id", "1")], true⟩).passed = true := by
  have h := c9_harness [⟨"GET", "/users/:id", .base 0⟩]
    [⟨"t1", "GET", "/users/1", some [("id", "1")], true⟩]
    ⟨"t1", "GET", "/users/1", some [("id", "1")], true⟩
  refine ⟨h.1, ?_⟩
  have h2 := h.2.2 (some ⟨.base 0, [("id", "1")]⟩) (by decide)
  exact h2.mpr (by decide)

/-- **C10.** Global plugins are consulted at request time, not snapshotted
at registration: after registering a route and then adding a global plugin
`p`, dispatching to the route executes the wrapped handler with the
router's current global list, so the late-added `p` runs (given the
earlier globals continue) whether `p` itself continues or halts. -/
theorem c10_late_global_plugin (g : List Plugin) (p : Plugin) (n : Nat)
    (customs : List Plugin) (rd : Option String)
    (hg : ∀ q ∈ g, q.result = true) :
    dispatch (addGlobalPlugin (addRoute ⟨[], g⟩ "GET" "/items/:id" (.base n) customs rd) p)
        "GET" "/items/42" =
      .ok (some (runHandler (g ++ [p]) (.wrapped customs (.base n) rd))) ∧
    TraceEvent.pluginRan true p.name ∈
      runHandler (g ++ [p]) (.wrapped customs (.base n) rd) := by
  constructor
  · rfl
  · rw [runHandler_wrapped_eq]
    by_cases hp : p.result = true
    · rw [runPlugins_true true (g ++ [p])
        (fun q hq => by
          rcases List.mem_append.mp hq with h | h
          · exact hg q h
          · rw [List.mem_singleton.mp h]; exact hp)]
      have hmem : TraceEvent.pluginRan true p.name ∈
          (g ++ [p]).map (fun q => TraceEvent.pluginRan true q.name) := by simp
      by_cases hcx : (runPlugins false customs).2 = true <;> simp [hcx, hmem]
    · have hpf : p.result = false := by
        cases hres : p.result
        · rfl
        · exact absurd hres hp
      rw [runPlugins_halt true g p [] hg hpf]
      simp

/-- Witness for C10: with one pre-existing global plugin, the plugin added
after route registration runs on dispatch. -/
theorem c10_late_global_plugin_witness :
    TraceEvent.pluginRan true "late" ∈
      runHandler ([⟨"g0", true⟩] ++ [⟨"late", true⟩]) (.wrapped [] (.base 0) none) := by
  exact (c10_late_global_plugin [⟨"g0", true⟩] ⟨"late", true⟩ 0 [] none
    (by decide)).2
